import Mathlib

/-!
Verification of the image-gallery search/indexing engine.

The TypeScript sources are embedded shallowly: JS strings become `List Char`,
JS objects become structures, the recognition index becomes an association
list, and the asynchronous external calls (recognition, context extraction)
become explicit oracle parameters.  Numbers that hold epoch-millisecond
timestamps become `Int`; scores become `Nat` (all additions are non-negative).
-/

set_option maxHeartbeats 1000000

/-- Strings of the JS runtime, modelled as lists of characters. -/
abbrev Str := List Char

/-- The characters stripped by JS `String.prototype.trim` and matched by the
regex class `\s` (restricted to the ASCII range used in this code base). -/
def isJsWhitespace (c : Char) : Bool :=
  c = ' ' || c = '\t' || c = '\n' || c = '\r' || c = Char.ofNat 11 || c = Char.ofNat 12

/-- JS `trimStart`. -/
def jsTrimLeft (s : Str) : Str := s.dropWhile isJsWhitespace

/-- JS `trimEnd`. -/
def jsTrimRight (s : Str) : Str := (s.reverse.dropWhile isJsWhitespace).reverse

/-- JS `trim`. -/
def jsTrim (s : Str) : Str := jsTrimRight (jsTrimLeft s)

/-- JS `toLowerCase`, faithful on the ASCII inputs this code handles. -/
def jsToLower (s : Str) : Str := s.map Char.toLower

/-- JS `split(sep)` for a single-character separator; keeps empty pieces,
including a trailing empty piece when the string ends with the separator. -/
def splitOnChar (sep : Char) : Str → List Str
  | [] => [[]]
  | c :: rest =>
    match splitOnChar sep rest with
    | [] => if c = sep then [[], []] else [[c]]
    | h :: t => if c = sep then [] :: h :: t else (c :: h) :: t

/-- Accumulator loop for `jsWords`: `cur` holds the current word reversed. -/
def jsWordsGo : Str → Str → List Str
  | [], cur => if cur.isEmpty then [] else [cur.reverse]
  | c :: rest, cur =>
    if isJsWhitespace c then
      (if cur.isEmpty then [] else [cur.reverse]) ++ jsWordsGo rest []
    else jsWordsGo rest (c :: cur)

/-- JS `split(ws-regex).filter(w => w.length > 0)`: the whitespace-separated
words of a string. -/
def jsWords (s : Str) : List Str := jsWordsGo s []

/-- JS `content.includes(needle)`: substring containment. -/
def includesSub (needle : Str) (hay : Str) : Bool :=
  match hay with
  | [] => needle.isEmpty
  | _ :: rest => needle.isPrefixOf hay || includesSub needle rest

/-- Scan loop for `countOccs`: `skip` counts characters still covered by the
previous match, inside which no new match may start. -/
def countOccsGo (p : Str) : Str → Nat → Nat
  | [], _ => 0
  | c :: rest, skip =>
    match skip with
    | k + 1 => countOccsGo p rest k
    | 0 =>
      if p.isPrefixOf (c :: rest) then 1 + countOccsGo p rest (p.length - 1)
      else countOccsGo p rest 0

/-- The number of matches of `str.match(new RegExp(escapeRegex(p), 'g'))`:
a left-to-right scan where each match consumes its characters, so occurrences
never overlap.  (Faithful for the non-empty patterns the callers produce.) -/
def countOccs (p : Str) (s : Str) : Nat := countOccsGo p s 0

/-- JS `hay.indexOf(needle)`, with `-1` modelled as `none`. -/
def jsIndexOf (needle : Str) (hay : Str) : Option Nat :=
  match hay with
  | [] => if needle.isEmpty then some 0 else none
  | _ :: rest =>
    if needle.isPrefixOf hay then some 0
    else (jsIndexOf needle rest).map (· + 1)

/-! ## Block segmenter (`VaultSearchModal.splitContentIntoBlocks`) -/

/-- `isTitle` from the modal: the trimmed line matches `^#{1,6}\s`. -/
def isTitleLine (line : Str) : Bool :=
  let t := jsTrim line
  let hashes := (t.takeWhile (fun c => c = '#')).length
  1 ≤ hashes && hashes ≤ 6 &&
    (match t.drop hashes with
     | c :: _ => isJsWhitespace c
     | [] => false)

/-- `isBulletPoint` from the modal: the trimmed line matches
`^[-*+•]\s`, `^\d+\.\s`, or `^[a-zA-Z]\.\s`. -/
def isBulletPoint (line : Str) : Bool :=
  let t := jsTrim line
  (match t with
   | c :: d :: _ =>
     (c = '-' || c = '*' || c = '+' || c = Char.ofNat 0x2022) && isJsWhitespace d
   | _ => false) ||
  (let digits := t.takeWhile Char.isDigit
   digits.length ≥ 1 &&
     (match t.drop digits.length with
      | c :: d :: _ => c = '.' && isJsWhitespace d
      | _ => false)) ||
  (match t with
   | a :: c :: d :: _ => a.isAlpha && c = '.' && isJsWhitespace d
   | _ => false)

/-- A segmented block: content, 1-based start/end line, title flag. -/
structure Block where
  content : Str
  startLine : Nat
  endLine : Nat
  isTitle : Bool
deriving Repr, DecidableEq

/-- The loop body of `splitContentIntoBlocks`, threading the mutable state
`(currentBlock, blockStartLine, currentLine)` through the remaining lines and
returning the blocks emitted from this point on. -/
def splitBlocksGo : List Str → Str → Nat → Nat → List Block
  | [], currentBlock, blockStartLine, currentLine =>
    if (jsTrim currentBlock).isEmpty then []
    else [⟨jsTrim currentBlock, blockStartLine + 1, currentLine, false⟩]
  | line :: rest, currentBlock, blockStartLine, currentLine =>
    if isTitleLine line then
      (if (jsTrim currentBlock).isEmpty then [] else
        [⟨jsTrim currentBlock, blockStartLine + 1, currentLine, false⟩]) ++
      ⟨line, currentLine + 1, currentLine + 1, true⟩ ::
      splitBlocksGo rest [] (currentLine + 1) (currentLine + 1)
    else if isBulletPoint line then
      (if (jsTrim currentBlock).isEmpty then [] else
        [⟨jsTrim currentBlock, blockStartLine + 1, currentLine, false⟩]) ++
      ⟨line, currentLine + 1, currentLine + 1, false⟩ ::
      splitBlocksGo rest [] (currentLine + 1) (currentLine + 1)
    else if (jsTrim line).isEmpty then
      (if (jsTrim currentBlock).isEmpty then [] else
        [⟨jsTrim currentBlock, blockStartLine + 1, currentLine, false⟩]) ++
      splitBlocksGo rest [] (currentLine + 1) (currentLine + 1)
    else
      if currentBlock.isEmpty then
        splitBlocksGo rest line currentLine (currentLine + 1)
      else
        splitBlocksGo rest (currentBlock ++ '\n' :: line) blockStartLine (currentLine + 1)

/-- `splitContentIntoBlocks` from the modal. -/
def splitContentIntoBlocks (content : Str) : List Block :=
  splitBlocksGo (splitOnChar '\n' content) [] 0 0

/-! ## Recognition cache (`OCRService`) -/

/-- `OCRResult.context`: referencing notes and nearby content. -/
structure OCRContext where
  referencingNotes : List (Str × Str)
  nearbyContent : Str
deriving Repr, DecidableEq

/-- A cached recognition result: `text`, epoch-ms `timestamp`, optional
context.  (`confidence` and the derived `_searchableContent` field are not
needed by the claims and are modelled by `searchableContent` below.) -/
structure OCRResult where
  text : Str
  timestamp : Int
  context : Option OCRContext
deriving Repr, DecidableEq

/-- `thirtyDaysMs` from `getOCRText` / `getOCRTextWithoutSave`. -/
def thirtyDaysMs : Int := 30 * 24 * 60 * 60 * 1000

/-- `getOCRTextWithoutSave`, with the effects made explicit: the current cache
entry for the file, the file's `stat.mtime`, the clock `Date.now()`, and the
result `ocr` that `performOCR` would return are inputs; the returned text, the
resulting cache entry for the file, and whether the external recognition call
was made are outputs. -/
def getOCRTextWithoutSave (entry : Option OCRResult) (mtime now : Int)
    (ocr : Str) (ctx : Option OCRContext) : Str × OCRResult × Bool :=
  match entry with
  | some cachedResult =>
    if now - cachedResult.timestamp < thirtyDaysMs then
      if mtime ≤ cachedResult.timestamp then
        (cachedResult.text, cachedResult, false)
      else
        (ocr, ⟨ocr, now, ctx⟩, true)
    else
      (ocr, ⟨ocr, now, ctx⟩, true)
  | none => (ocr, ⟨ocr, now, ctx⟩, true)

/-- `getOCRText`: identical cache logic to `getOCRTextWithoutSave` (the only
difference in the source is the `saveIndex()` persistence call, which has no
effect on the in-memory entry or the returned text). -/
def getOCRText (entry : Option OCRResult) (mtime now : Int)
    (ocr : Str) (ctx : Option OCRContext) : Str × OCRResult × Bool :=
  match entry with
  | some cachedResult =>
    if now - cachedResult.timestamp < thirtyDaysMs then
      if mtime ≤ cachedResult.timestamp then
        (cachedResult.text, cachedResult, false)
      else
        (ocr, ⟨ocr, now, ctx⟩, true)
    else
      (ocr, ⟨ocr, now, ctx⟩, true)
  | none => (ocr, ⟨ocr, now, ctx⟩, true)

/-- `performOCR`: the primary Swift/Vision invocation and the `shortcuts`
fallback are oracles producing either a stdout string or an error.  The
function returns the trimmed primary stdout, else the trimmed fallback
stdout, else the empty string — it never throws. -/
def performOCR (primary fallback : Except Str Str) : Str :=
  match primary with
  | .ok stdout => jsTrim stdout
  | .error _ =>
    match fallback with
    | .ok stdout => jsTrim stdout
    | .error _ => []

/-! ## Query parser and evaluator (`OCRService`) -/

/-- `SearchTerm` from the service: main text, negation flag, phrase flag and
OR-alternatives (themselves terms). -/
inductive SearchTerm : Type where
  | mk : Str → Bool → Bool → List SearchTerm → SearchTerm

def SearchTerm.text : SearchTerm → Str
  | .mk t _ _ _ => t

def SearchTerm.isNegated : SearchTerm → Bool
  | .mk _ n _ _ => n

def SearchTerm.isPhrase : SearchTerm → Bool
  | .mk _ _ p _ => p

def SearchTerm.alternatives : SearchTerm → List SearchTerm
  | .mk _ _ _ a => a

/-- `matchesKeywords`: every keyword, split into whitespace-separated words,
must have all its words appear as substrings of the content. -/
def matchesKeywords (keywords : List Str) (content : Str) : Bool :=
  keywords.all fun keyword =>
    (jsWords keyword).all fun word => includesSub word content

/-- The match test applied to a term's own text (the shared body of the
phrase/keyword ternaries in `evaluateSingleTerm`). -/
def matchesText (isPh : Bool) (text content : Str) : Bool :=
  if isPh then includesSub text content else matchesKeywords [text] content

/-- `evaluateSingleTerm`: the main term matches, or — when alternatives are
present — any alternative matches. -/
def evaluateSingleTerm (term : SearchTerm) (content : Str) : Bool :=
  let mainMatch := matchesText term.isPhrase term.text content
  if term.alternatives.length > 0 then
    mainMatch || term.alternatives.any fun alt =>
      matchesText alt.isPhrase alt.text content
  else
    mainMatch

/-- `evaluateSearchTerms`: negated terms must not match, positive terms must
all match. -/
def evaluateSearchTerms (terms : List SearchTerm) (content : Str) : Bool :=
  match terms with
  | [] => true
  | term :: rest =>
    let termMatches := evaluateSingleTerm term content
    if term.isNegated then
      if termMatches then false else evaluateSearchTerms rest content
    else
      if termMatches then evaluateSearchTerms rest content else false

/-- The loop body of `tokenizeQuery`, threading `current`, `inQuotes` and
`quoteChar` through the remaining characters.  `quoteChar` is `none` outside
quotes. -/
def tokenizeGo : Str → Str → Option Char → List Str → List Str
  | [], current, _, tokens =>
    if (jsTrim current).isEmpty then tokens.reverse
    else (jsTrim current :: tokens).reverse
  | c :: rest, current, quoteChar, tokens =>
    match quoteChar with
    | none =>
      if c = Char.ofNat 34 || c = Char.ofNat 39 then
        tokenizeGo rest (current ++ [c]) (some c) tokens
      else if c = ' ' then
        if (jsTrim current).isEmpty then tokenizeGo rest current none tokens
        else tokenizeGo rest [] none (jsTrim current :: tokens)
      else
        tokenizeGo rest (current ++ [c]) none tokens
    | some q =>
      if c = q then
        tokenizeGo rest [] none (jsTrim (current ++ [c]) :: tokens)
      else
        tokenizeGo rest (current ++ [c]) (some q) tokens

/-- `tokenizeQuery`: split on unquoted spaces, keeping quoted runs together;
every pushed token is trimmed, and empty tokens are dropped. -/
def tokenizeQuery (query : Str) : List Str :=
  (tokenizeGo query [] none []).filter fun token => token.length > 0

/-- `parseToken`: strip a leading `-` into `isNegated`; a token wrapped in
matching quotes becomes a phrase with the quotes stripped; text is
lowercased. -/
def parseToken (token : Str) : SearchTerm :=
  let (isNeg, t) :=
    match token with
    | '-' :: restTok => (true, restTok)
    | _ => (false, token)
  let isQuoted (q : Char) : Bool :=
    match t with
    | c :: _ => c = q && t.getLast? = some q
    | [] => false
  if isQuoted (Char.ofNat 34) || isQuoted (Char.ofNat 39) then
    .mk (jsToLower t.dropLast.tail) isNeg true []
  else
    .mk (jsToLower t) isNeg false []

/-- Append an alternative to the last parsed term (the mutation
`prevTerm.alternatives.push(nextTerm)` of the source). -/
def pushAlternative (terms : List SearchTerm) (alt : SearchTerm) : List SearchTerm :=
  match terms with
  | [] => []
  | [SearchTerm.mk t n p alts] => [SearchTerm.mk t n p (alts ++ [alt])]
  | term :: rest => term :: pushAlternative rest alt

/-- The token walk of `parseSearchQuery`: an `OR` token (case-insensitive)
with a preceding term and a following token attaches the following token as
an alternative of the preceding term and consumes both; otherwise the token
parses into its own term (a dangling `OR` is dropped). -/
def parseTokensLoop : List Str → List SearchTerm → List SearchTerm
  | [], terms => terms
  | [token], terms =>
    if jsToLower token = ['o', 'r'] then terms
    else terms ++ [parseToken token]
  | token :: nextToken :: rest, terms =>
    if jsToLower token = ['o', 'r'] then
      if terms.length > 0 then
        parseTokensLoop rest (pushAlternative terms (parseToken nextToken))
      else
        parseTokensLoop (nextToken :: rest) terms
    else
      parseTokensLoop (nextToken :: rest) (terms ++ [parseToken token])

/-- `parseSearchQuery` from the service. -/
def parseSearchQuery (query : Str) : List SearchTerm :=
  parseTokensLoop (tokenizeQuery query) []

/-- `getSearchableContent`: text, referencing-note titles and nearby content
joined with single spaces, lowercased.  (The memoization in the source caches
exactly this value on the entry.) -/
def getSearchableContent (ocrResult : OCRResult) : Str :=
  jsToLower (List.intercalate [' ']
    (ocrResult.text ::
      (match ocrResult.context with
       | some ctx => ctx.referencingNotes.map (fun note => note.1) ++ [ctx.nearbyContent]
       | none => [[]])))

/-- `searchImages` on the service: for a non-blank query, the identifiers of
all indexed entries whose searchable content satisfies the parsed terms, in
index order (the `Set` of the source preserves insertion order and the index
has at most one entry per identifier). -/
def searchImages (index : List (Str × OCRResult)) (query : Str) : List Str :=
  if (jsTrim query).isEmpty then []
  else
    let searchTerms := parseSearchQuery query
    (index.filter fun entry =>
      evaluateSearchTerms searchTerms (getSearchableContent entry.2)).map
      fun entry => entry.1

/-! ## Relevance scorers (`VaultSearchModal`) -/

/-- The proximity bonus of one unordered pair of terms in
`calculateBlockScore`, from the first occurrences of the two terms. -/
def pairBonus (isTitle : Bool) (blockLower : Str) (t1 t2 : Str) : Nat :=
  match jsIndexOf t1 blockLower, jsIndexOf t2 blockLower with
  | some i1, some i2 =>
    let distance := ((i2 : Int) - (i1 : Int)).natAbs
    if distance < 50 then (if isTitle then 100 else 30)
    else if distance < 100 then (if isTitle then 50 else 15)
    else if distance < 200 then (if isTitle then 25 else 5)
    else 0
  | _, _ => 0

/-- The double loop over pairs `i < j` of terms in `calculateBlockScore`. -/
def pairsBonus (isTitle : Bool) (blockLower : Str) : List Str → Nat
  | [] => 0
  | t :: rest =>
    (rest.map (pairBonus isTitle blockLower t)).sum + pairsBonus isTitle blockLower rest

/-- `calculateBlockScore`: 1000 title base, 10 (100 for titles) per term
occurrence in the lowercased content, a length bonus for non-title blocks,
and pairwise proximity bonuses. -/
def calculateBlockScore (blockContent : Str) (terms : List Str) (isTitle : Bool) : Nat :=
  let blockLower := jsToLower blockContent
  let titleBase := if isTitle then 1000 else 0
  let termScore :=
    (terms.map fun term =>
      countOccs term blockLower * (if isTitle then 100 else 10)).sum
  let lengthBonus :=
    if isTitle then 0
    else if blockContent.length < 200 then 20
    else if blockContent.length < 500 then 10
    else 0
  let proximity :=
    if terms.length > 1 then pairsBonus isTitle blockLower terms else 0
  titleBase + termScore + lengthBonus + proximity

/-- `calculateImageScore`: 20 per term occurrence in the lowercased OCR text
plus a length bonus (+30 for non-empty text under 100 characters, else +15
under 300 characters). -/
def calculateImageScore (ocrText : Str) (terms : List Str) : Nat :=
  let textLower := jsToLower ocrText
  let termScore := (terms.map fun term => countOccs term textLower * 20).sum
  let textLength := ocrText.length
  let lengthBonus :=
    if textLength > 0 ∧ textLength < 100 then 30
    else if textLength < 300 then 15
    else 0
  termScore + lengthBonus

/-! ## Concurrent indexer (`indexAllImages`, `incrementalUpdate`) -/

/-- The `file` payload of an image item: identifier path and `stat.mtime`. -/
structure ImgFile where
  path : Str
  mtime : Int
deriving Repr, DecidableEq

/-- An element of the `images` argument: optional file and locality flag. -/
structure ImgItem where
  file : Option ImgFile
  isLocal : Bool
deriving Repr, DecidableEq

/-- The filter `images.filter(img => img.isLocal && img.file)`. -/
def isLocalWithFile (img : ImgItem) : Bool :=
  img.isLocal && img.file.isSome

/-- Lookup in the recognition index (`this.index[filePath]`). -/
def lookupIndex (index : List (Str × OCRResult)) (path : Str) : Option OCRResult :=
  match index with
  | [] => none
  | (p, r) :: rest => if p = path then some r else lookupIndex rest path

/-- The per-item test of `incrementalUpdate`: no cache entry, or the file was
modified strictly after the cached timestamp. -/
def itemNeedsIndexing (index : List (Str × OCRResult)) (img : ImgItem) : Bool :=
  match img.file with
  | none => false
  | some f =>
    match lookupIndex index f.path with
    | none => true
    | some existingResult => f.mtime > existingResult.timestamp

/-- `incrementalUpdate`, returning the list handed to `indexAllImages`
together with the `{indexed, skipped}` counts.  (When nothing needs indexing
the source returns early with `{indexed: 0, skipped: localImages.length}`,
which coincides with the general formula.) -/
def incrementalUpdate (index : List (Str × OCRResult)) (images : List ImgItem) :
    List ImgItem × Nat × Nat :=
  let localImages := images.filter isLocalWithFile
  let imagesToIndex := localImages.filter (itemNeedsIndexing index)
  (imagesToIndex, imagesToIndex.length, localImages.length - imagesToIndex.length)

/-- Chunk-building loop: `cur` accumulates the current chunk up to size
`n`. -/
def chunksOfGo (n : Nat) : List ImgItem → List ImgItem → List (List ImgItem)
  | [], cur => if cur.isEmpty then [] else [cur]
  | x :: rest, cur =>
    if cur.length + 1 = n then (cur ++ [x]) :: chunksOfGo n rest []
    else chunksOfGo n rest (cur ++ [x])

/-- `localImages.slice` chunking of `indexAllImages`: consecutive chunks of
size `n` (the last possibly shorter). -/
def chunksOf (n : Nat) (l : List ImgItem) : List (List ImgItem) :=
  if n = 0 then (if l.isEmpty then [] else [l]) else chunksOfGo n l []

/-- One chunk's `chunk.map(async img => ...)` bodies, run left to right with
the shared `processed` counter threaded through.  Each item with a file
counts as processed and reports `(processed, total)` whether its recognition
succeeded or threw; the promise results (`true`/`false`) are collected.
`itemOutcome` is the oracle for `getOCRTextWithoutSave`/`extractImageContext`
throwing on a given path. -/
def runItems (itemOutcome : Str → Except Str Unit) (total : Nat) :
    List ImgItem → Nat → Nat × List (Nat × Nat) × List Bool
  | [], processed => (processed, [], [])
  | img :: rest, processed =>
    match img.file with
    | none =>
      let r := runItems itemOutcome total rest processed
      (r.1, r.2.1, false :: r.2.2)
    | some f =>
      let ok :=
        match itemOutcome f.path with
        | .ok _ => true
        | .error _ => false
      let r := runItems itemOutcome total rest (processed + 1)
      (r.1, (processed + 1, total) :: r.2.1, ok :: r.2.2)

/-- The chunk loop of `indexAllImages`: chunks run in order, the `processed`
counter and the collected progress reports/results accumulate across
chunks. -/
def runChunks (itemOutcome : Str → Except Str Unit) (total : Nat) :
    List (List ImgItem) → Nat → Nat × List (Nat × Nat) × List Bool
  | [], processed => (processed, [], [])
  | chunk :: rest, processed =>
    let r1 := runItems itemOutcome total chunk processed
    let r2 := runChunks itemOutcome total rest r1.1
    (r2.1, r1.2.1 ++ r2.2.1, r1.2.2 ++ r2.2.2)

/-- `indexAllImages`: filter to local items with files, chunk by the
concurrency limit, process every chunk.  Returns the final `processed`
count, the progress reports in order, and each item's promise result. -/
def indexAllImages (itemOutcome : Str → Except Str Unit) (images : List ImgItem)
    (concurrencyLimit : Nat) : Nat × List (Nat × Nat) × List Bool :=
  let localImages := images.filter isLocalWithFile
  runChunks itemOutcome localImages.length (chunksOf concurrencyLimit localImages) 0

/-! ## Theorems -/

/-- C7: segmenting `"# Title\n\nSome text\n- bullet\n"` yields exactly three
blocks in order — a title block spanning line 1 with the heading content, a
non-title paragraph block at line 3 with content `"Some text"`, and a
non-title bullet block at line 4 — with 1-based start and end line numbers. -/
theorem c7_segment_three_blocks :
    splitContentIntoBlocks ("# Title\n\nSome text\n- bullet\n".toList) =
      [⟨"# Title".toList, 1, 1, true⟩,
       ⟨"Some text".toList, 3, 3, false⟩,
       ⟨"- bullet".toList, 4, 4, false⟩] := by decide

/-- C10: the non-empty query `"or"` parses to an empty term list (the leading
`OR` has no preceding term, so it is dropped), the empty term list evaluates
to true on every content, and `searchImages` on it returns the identifier of
every indexed entry. -/
theorem c10_or_query_returns_everything :
    parseSearchQuery ("or".toList) = [] ∧
    (∀ content : Str, evaluateSearchTerms (parseSearchQuery ("or".toList)) content = true) ∧
    (∀ index : List (Str × OCRResult),
      searchImages index ("or".toList) = index.map fun e => e.1) := by
  refine ⟨rfl, fun content => rfl, fun index => ?_⟩
  have h1 : searchImages index ("or".toList) =
      (index.filter fun _ => true).map (fun e => e.1) := rfl
  rw [h1, List.filter_true]

/-- C8 counterexample: on empty recognition text (length 0, hence shorter
than 100 characters) with no terms, the score is 15, not the 30 the claim
predicts for all texts shorter than 100 characters. -/
theorem c8_counterexample_empty_text :
    calculateImageScore [] [] = 15 := by decide

/-- C8 amended: recognition-result scoring is 20 points per (non-overlapping)
term occurrence plus a length bonus of +30 only when the text is non-empty
and shorter than 100 characters, and +15 otherwise when shorter than 300
characters — in particular empty text receives +15, not +30. -/
theorem c8_amended_image_score_formula (ocrText : Str) (terms : List Str) :
    calculateImageScore ocrText terms =
      (terms.map fun t => countOccs t (jsToLower ocrText)).sum * 20 +
        (if 0 < ocrText.length ∧ ocrText.length < 100 then 30
         else if ocrText.length < 300 then 15 else 0) := by
  simp only [calculateImageScore]
  rw [List.sum_map_mul_right]

/-- C3 counterexample: for content `"aaa"` and term `"aa"` the scan counts
one (non-overlapping) occurrence, and the non-title block score is
10 (occurrence) + 20 (short-block bonus) = 30 — not the 2 occurrences / 20
occurrence points the claim predicts. -/
theorem c3_counterexample_overlap :
    countOccs ("aa".toList) ("aaa".toList) = 1 ∧
    calculateBlockScore ("aaa".toList) [("aa".toList)] false = 30 := by decide

/-- C3 amended: each non-overlapping occurrence of a term (counted by a
left-to-right scan of the lowercased content in which each match consumes
its characters) adds 10 points, or 100 points for title blocks; for a single
term the remaining summands are exactly the non-title length bonus
(titles get the 1000 base and no length bonus). -/
theorem c3_amended_occurrence_points (content t : Str) :
    calculateBlockScore content [t] false =
      countOccs t (jsToLower content) * 10 +
        (if content.length < 200 then 20 else if content.length < 500 then 10 else 0) ∧
    calculateBlockScore content [t] true = 1000 + countOccs t (jsToLower content) * 100 := by
  constructor <;> simp [calculateBlockScore, pairsBonus]

/-- C2 counterexample: a negated term whose main text `"foo"` does not match
the content `"bar"` but whose OR-alternative `"bar"` does match makes
evaluation fail — so the alternatives of a negated term do affect the
outcome, contrary to the claim. -/
theorem c2_counterexample_negated_alternative :
    evaluateSearchTerms
      [SearchTerm.mk ("foo".toList) true false [SearchTerm.mk ("bar".toList) false false []]]
      ("bar".toList) = false ∧
    matchesText false ("foo".toList) ("bar".toList) = false := by decide

/-- `evaluateSingleTerm` in closed form: the main text matches or some
alternative matches (shared helper). -/
theorem evaluateSingleTerm_eq (t : SearchTerm) (content : Str) :
    evaluateSingleTerm t content =
      (matchesText t.isPhrase t.text content ||
        t.alternatives.any fun alt => matchesText alt.isPhrase alt.text content) := by
  cases t with
  | mk txt n p alts =>
    cases alts with
    | nil =>
      simp [evaluateSingleTerm, SearchTerm.alternatives]
    | cons a rest =>
      simp [evaluateSingleTerm, SearchTerm.alternatives]

/-- C2 amended: for a negated term, evaluation fails exactly when the main
term text matches the content OR any of the term's OR-alternatives matches —
the negation applies to the whole disjunction, not only to the main term. -/
theorem c2_amended_negation_covers_alternatives (t : SearchTerm) (content : Str)
    (h : t.isNegated = true) :
    evaluateSearchTerms [t] content = false ↔
      (matchesText t.isPhrase t.text content = true ∨
       t.alternatives.any (fun alt => matchesText alt.isPhrase alt.text content) = true) := by
  have h1 : evaluateSearchTerms [t] content = !(evaluateSingleTerm t content) := by
    cases t with
    | mk txt n p alts =>
      simp only [SearchTerm.isNegated] at h
      subst h
      cases hev : evaluateSingleTerm (SearchTerm.mk txt true p alts) content <;>
        simp [evaluateSearchTerms, SearchTerm.isNegated, hev]
  rw [h1, evaluateSingleTerm_eq]
  cases hm : matchesText t.isPhrase t.text content <;>
    cases ha : t.alternatives.any (fun alt => matchesText alt.isPhrase alt.text content) <;>
      simp [hm, ha]

/-- C2 amended witness at a concrete input. -/
theorem c2_amended_witness :
    evaluateSearchTerms [SearchTerm.mk ("foo".toList) true false []] ("foo".toList) = false :=
  (c2_amended_negation_covers_alternatives
    (SearchTerm.mk ("foo".toList) true false []) ("foo".toList) rfl).mpr
    (Or.inl (by decide))

/-- C1 counterexample: a cache entry exactly 30 days old (`now - timestamp =
thirtyDaysMs`) for an unmodified file (`mtime = timestamp`) is not stale
under the claim's rule (`>` 30 days fails, `mtime > timestamp` fails), yet
the code performs the recognition call. -/
theorem c1_counterexample_thirty_day_boundary :
    (getOCRTextWithoutSave (some ⟨"cached".toList, 0, none⟩) 0 thirtyDaysMs
      ("fresh".toList) none).2.2 = true ∧
    (getOCRText (some ⟨"cached".toList, 0, none⟩) 0 thirtyDaysMs
      ("fresh".toList) none).2.2 = true ∧
    ¬(thirtyDaysMs - (0 : Int) > thirtyDaysMs) ∧ ¬((0 : Int) > 0) := by decide

/-- C1 amended: `getOCRText` and `getOCRTextWithoutSave` behave identically;
the recognition call is made if and only if the entry is absent, or
`now - entry.timestamp ≥ 30 days` (boundary included), or the item's
modification time is strictly greater than `entry.timestamp`; when no call
is made the cached text is returned and the entry is left unchanged. -/
theorem c1_amended_staleness (entry : Option OCRResult) (mtime now : Int)
    (ocr : Str) (ctx : Option OCRContext) :
    getOCRText entry mtime now ocr ctx = getOCRTextWithoutSave entry mtime now ocr ctx ∧
    ((getOCRTextWithoutSave entry mtime now ocr ctx).2.2 = true ↔
      ∀ c, entry = some c → thirtyDaysMs ≤ now - c.timestamp ∨ c.timestamp < mtime) ∧
    ((getOCRTextWithoutSave entry mtime now ocr ctx).2.2 = false →
      ∃ c, entry = some c ∧
        getOCRTextWithoutSave entry mtime now ocr ctx = (c.text, c, false)) := by
  cases entry with
  | none =>
    refine ⟨rfl, ?_, ?_⟩
    · simp [getOCRTextWithoutSave]
    · simp [getOCRTextWithoutSave]
  | some c =>
    refine ⟨rfl, ?_, ?_⟩
    · simp only [getOCRTextWithoutSave]
      split_ifs with h1 h2 <;> simp_all
    · simp only [getOCRTextWithoutSave]
      split_ifs with h1 h2 <;> simp_all

/-- C1 amended witness at a concrete input: a one-millisecond-old unmodified
entry is fresh, and the cached text comes back with the entry unchanged. -/
theorem c1_amended_witness :
    getOCRTextWithoutSave (some ⟨"cached".toList, 0, none⟩) 0 1 ("fresh".toList) none =
      ("cached".toList, ⟨"cached".toList, 0, none⟩, false) := by
  have h := (c1_amended_staleness (some ⟨"cached".toList, 0, none⟩) 0 1
    ("fresh".toList) none).2.2 (by decide)
  obtain ⟨c, hc, heq⟩ := h
  obtain rfl : c = ⟨"cached".toList, 0, none⟩ := by cases hc; rfl
  exact heq

/-- C4: `incrementalUpdate` hands the batch indexer exactly the items that
need indexing (no cache entry, or modification time strictly greater than
the cached timestamp) and returns `{indexed: m, skipped: N - m}`; when
exactly one of the local items needs indexing, it returns
`{indexed: 1, skipped: N - 1}` and the batch list is exactly that item. -/
theorem c4_incremental_partition_counts
    (index : List (Str × OCRResult)) (images l1 l2 : List ImgItem) (x : ImgItem)
    (hlocal : images.filter isLocalWithFile = l1 ++ x :: l2)
    (hx : itemNeedsIndexing index x = true)
    (h1 : ∀ y ∈ l1, itemNeedsIndexing index y = false)
    (h2 : ∀ y ∈ l2, itemNeedsIndexing index y = false) :
    incrementalUpdate index images =
      ((images.filter isLocalWithFile).filter (itemNeedsIndexing index),
        ((images.filter isLocalWithFile).filter (itemNeedsIndexing index)).length,
        (images.filter isLocalWithFile).length -
          ((images.filter isLocalWithFile).filter (itemNeedsIndexing index)).length) ∧
    incrementalUpdate index images = ([x], 1, l1.length + l2.length) := by
  refine ⟨rfl, ?_⟩
  have hf1 : l1.filter (itemNeedsIndexing index) = [] :=
    List.filter_eq_nil_iff.mpr (by simpa using h1)
  have hf2 : l2.filter (itemNeedsIndexing index) = [] :=
    List.filter_eq_nil_iff.mpr (by simpa using h2)
  unfold incrementalUpdate
  rw [hlocal]
  simp [List.filter_append, List.filter_cons, hx, hf1, hf2, List.length_append]

/-- C4 witness: three cached items, the middle one's modification time has
advanced past its cached timestamp; the result is `{indexed: 1, skipped: 2}`
and only that item is handed to the indexer. -/
theorem c4_incremental_partition_counts_witness :
    incrementalUpdate
      [("a".toList, ⟨[], 5, none⟩), ("b".toList, ⟨[], 5, none⟩), ("c".toList, ⟨[], 5, none⟩)]
      [⟨some ⟨"a".toList, 3⟩, true⟩, ⟨some ⟨"b".toList, 9⟩, true⟩, ⟨some ⟨"c".toList, 5⟩, true⟩] =
      ([⟨some ⟨"b".toList, 9⟩, true⟩], 1, 2) := by
  have h := (c4_incremental_partition_counts
    [("a".toList, ⟨[], 5, none⟩), ("b".toList, ⟨[], 5, none⟩), ("c".toList, ⟨[], 5, none⟩)]
    [⟨some ⟨"a".toList, 3⟩, true⟩, ⟨some ⟨"b".toList, 9⟩, true⟩, ⟨some ⟨"c".toList, 5⟩, true⟩]
    [⟨some ⟨"a".toList, 3⟩, true⟩] [⟨some ⟨"c".toList, 5⟩, true⟩] ⟨some ⟨"b".toList, 9⟩, true⟩
    (by decide) (by decide) (by decide) (by decide)).2
  simpa using h

/-- C9: an item with a cache entry whose modification time is at most the
cached timestamp is never handed to the indexer by `incrementalUpdate`, even
when the entry is at least 30 days old — old enough that
`getOCRTextWithoutSave` itself would re-recognize it: the 30-day age rule is
not consulted by the partition. -/
theorem c9_incremental_ignores_entry_age
    (index : List (Str × OCRResult)) (images : List ImgItem)
    (img : ImgItem) (f : ImgFile) (r : OCRResult) (now : Int)
    (ocr : Str) (ctx : Option OCRContext)
    (hf : img.file = some f)
    (hr : lookupIndex index f.path = some r)
    (hm : f.mtime ≤ r.timestamp)
    (hold : thirtyDaysMs ≤ now - r.timestamp) :
    itemNeedsIndexing index img = false ∧
    img ∉ (incrementalUpdate index images).1 ∧
    (getOCRTextWithoutSave (some r) f.mtime now ocr ctx).2.2 = true := by
  have hni : itemNeedsIndexing index img = false := by
    simp only [itemNeedsIndexing, hf, hr]
    simp
    omega
  refine ⟨hni, ?_, ?_⟩
  · intro hmem
    have hmem2 : img ∈ (images.filter isLocalWithFile).filter (itemNeedsIndexing index) := hmem
    have := (List.mem_filter.mp hmem2).2
    simp [hni] at this
  · simp only [getOCRTextWithoutSave]
    split_ifs <;> first | rfl | omega

/-- C9 witness: a 30-day-old unmodified entry is skipped by the partition
although the staleness rule of the cache would re-recognize it. -/
theorem c9_incremental_ignores_entry_age_witness :
    itemNeedsIndexing [("a".toList, ⟨[], 0, none⟩)] ⟨some ⟨"a".toList, 0⟩, true⟩ = false ∧
    (⟨some ⟨"a".toList, 0⟩, true⟩ : ImgItem) ∉
      (incrementalUpdate [("a".toList, ⟨[], 0, none⟩)] [⟨some ⟨"a".toList, 0⟩, true⟩]).1 ∧
    (getOCRTextWithoutSave (some ⟨[], 0, none⟩) 0 thirtyDaysMs [] none).2.2 = true :=
  c9_incremental_ignores_entry_age
    [("a".toList, ⟨[], 0, none⟩)] [⟨some ⟨"a".toList, 0⟩, true⟩]
    ⟨some ⟨"a".toList, 0⟩, true⟩ ⟨"a".toList, 0⟩ ⟨[], 0, none⟩ thirtyDaysMs [] none
    rfl rfl (by decide) (by decide)

/-- Running the item loop over a concatenation threads the `processed`
counter through and concatenates reports and results (shared helper). -/
theorem runItems_append (o : Str → Except Str Unit) (total : Nat)
    (a b : List ImgItem) (p : Nat) :
    runItems o total (a ++ b) p =
      ((runItems o total b (runItems o total a p).1).1,
        (runItems o total a p).2.1 ++ (runItems o total b (runItems o total a p).1).2.1,
        (runItems o total a p).2.2 ++ (runItems o total b (runItems o total a p).1).2.2) := by
  induction a generalizing p with
  | nil => simp [runItems]
  | cons i rest ih =>
    cases hfi : i.file with
    | none => simp [runItems, hfi, ih]
    | some f => simp [runItems, hfi, ih]

/-- The chunk loop is the item loop on the flattened chunk list (shared
helper). -/
theorem runChunks_eq_runItems (o : Str → Except Str Unit) (total : Nat)
    (chs : List (List ImgItem)) (p : Nat) :
    runChunks o total chs p = runItems o total chs.flatten p := by
  induction chs generalizing p with
  | nil => simp [runChunks, runItems]
  | cons c rest ih =>
    simp [runChunks, ih, runItems_append]

/-- The chunk builder loses no items (shared helper). -/
theorem chunksOfGo_flatten (n : Nat) (l cur : List ImgItem) :
    (chunksOfGo n l cur).flatten = cur ++ l := by
  induction l generalizing cur with
  | nil => cases cur <;> simp [chunksOfGo]
  | cons x rest ih =>
    simp only [chunksOfGo]
    split_ifs with h
    · simp [ih]
    · simp [ih]

/-- Chunking partitions the list: flattening the chunks gives the list back
(shared helper). -/
theorem chunksOf_flatten (n : Nat) (l : List ImgItem) :
    (chunksOf n l).flatten = l := by
  by_cases h : n = 0
  · subst h
    cases l <;> simp [chunksOf]
  · simp [chunksOf, h, chunksOfGo_flatten]

/-- The item loop on items that all carry files: every item is counted as
processed — whether its recognition succeeded or failed — progress is
reported after each item as `(processed so far, total)`, and every item
produces a promise result (shared helper). -/
theorem runItems_spec (o : Str → Except Str Unit) (total : Nat)
    (l : List ImgItem) (p : Nat)
    (h : ∀ i ∈ l, i.file.isSome = true) :
    (runItems o total l p).1 = p + l.length ∧
    (runItems o total l p).2.1 =
      (List.range l.length).map (fun k => (p + k + 1, total)) ∧
    (runItems o total l p).2.2.length = l.length := by
  induction l generalizing p with
  | nil => simp [runItems]
  | cons i rest ih =>
    obtain ⟨f, hf⟩ := Option.isSome_iff_exists.mp (h i (by simp))
    have hrest : ∀ j ∈ rest, j.file.isSome = true := fun j hj => h j (by simp [hj])
    obtain ⟨ih1, ih2, ih3⟩ := ih (p + 1) hrest
    refine ⟨?_, ?_, ?_⟩
    · simp only [runItems, hf]
      simp [ih1]
      omega
    · simp only [runItems, hf]
      simp only [List.length_cons, List.range_succ_eq_map, List.map_cons, List.map_map]
      have harg : ((fun k => (p + 1 + k + 1, total)) : Nat → Nat × Nat) =
          (fun k => (p + k + 1, total)) ∘ Nat.succ := by
        funext k
        simp [Function.comp]
        omega
      simp [ih2, harg]
    · simp only [runItems, hf]
      simp [ih3]

/-- C5: in a batch run every local item is processed — failures of the
recognition/context step are caught and still counted — progress is reported
once per item as `(k+1, N)`, each item yields a promise result, and a failed
external recognition call yields empty text which is what gets stored in the
new cache entry: a single item's failure never aborts the chunk or the
batch. -/
theorem c5_batch_failures_nonfatal (o : Str → Except Str Unit)
    (images : List ImgItem) (n : Nat) (_hn : 0 < n) :
    ((indexAllImages o images n).1 = (images.filter isLocalWithFile).length ∧
     (indexAllImages o images n).2.1 =
       (List.range (images.filter isLocalWithFile).length).map
         (fun k => (k + 1, (images.filter isLocalWithFile).length)) ∧
     (indexAllImages o images n).2.2.length = (images.filter isLocalWithFile).length) ∧
    (∀ e1 e2 : Str, performOCR (.error e1) (.error e2) = []) ∧
    (∀ (mtime now : Int) (ctx : Option OCRContext) (e1 e2 : Str),
      (getOCRTextWithoutSave none mtime now (performOCR (.error e1) (.error e2)) ctx).2.1.text
        = []) := by
  have hloc : ∀ i ∈ images.filter isLocalWithFile, i.file.isSome = true := by
    intro i hi
    have hi2 := (List.mem_filter.mp hi).2
    simp [isLocalWithFile] at hi2
    exact hi2.2
  have heq : indexAllImages o images n =
      runItems o (images.filter isLocalWithFile).length (images.filter isLocalWithFile) 0 := by
    unfold indexAllImages
    rw [runChunks_eq_runItems, chunksOf_flatten]
  obtain ⟨h1, h2, h3⟩ := runItems_spec o (images.filter isLocalWithFile).length
    (images.filter isLocalWithFile) 0 hloc
  refine ⟨⟨?_, ?_, ?_⟩, fun e1 e2 => rfl, fun mtime now ctx e1 e2 => rfl⟩
  · rw [heq, h1]
    omega
  · rw [heq, h2]
    simp
  · rw [heq, h3]

/-- C5 witness: two local items, every recognition fails, yet both are
processed and progress is reported as `(1, 2)` then `(2, 2)`. -/
theorem c5_batch_failures_nonfatal_witness :
    0 < 4 ∧
    (indexAllImages (fun _ => Except.error [])
      [⟨some ⟨"a".toList, 0⟩, true⟩, ⟨some ⟨"b".toList, 0⟩, true⟩] 4).2.1 =
      [(1, 2), (2, 2)] := by
  refine ⟨by decide, ?_⟩
  have h := (c5_batch_failures_nonfatal (fun _ => Except.error [])
    [⟨some ⟨"a".toList, 0⟩, true⟩, ⟨some ⟨"b".toList, 0⟩, true⟩] 4 (by decide)).1.2.1
  rw [h]
  decide

/-- C6 counterexample: for the query `"bar baz` — an opening double quote
with no matching closing quote — the resulting final term is NOT a phrase
term, and the opening quote character remains part of the (lowercased) term
text, contrary to the claim that a phrase term with text `bar baz` results. -/
theorem c6_counterexample_unterminated_quote :
    (parseSearchQuery ("\"bar baz".toList)).map SearchTerm.isPhrase = [false] ∧
    (parseSearchQuery ("\"bar baz".toList)).map SearchTerm.text = ["\"bar baz".toList] := by
  constructor <;> rfl

/-- Trimming on the right commutes with a non-whitespace head (shared
helper). -/
theorem jsTrimRight_cons (c : Char) (rest : Str) (h : isJsWhitespace c = false) :
    jsTrimRight (c :: rest) = c :: jsTrimRight rest := by
  simp only [jsTrimRight, List.reverse_cons, List.dropWhile_append]
  by_cases he : (rest.reverse.dropWhile isJsWhitespace).isEmpty
  · simp [List.isEmpty_iff.mp he, List.dropWhile_cons, h]
  · simp [he]

/-- Inside an open quote, the tokenizer consumes every character up to the
end of the string (no character equals the quote character), then flushes the
accumulated token (shared helper). -/
theorem tokenizeGo_inQuotes (q : Char) (rest : Str) (current : Str) (tokens : List Str)
    (h : ∀ c ∈ rest, c ≠ q) :
    tokenizeGo rest current (some q) tokens =
      (if (jsTrim (current ++ rest)).isEmpty then tokens.reverse
       else (jsTrim (current ++ rest) :: tokens).reverse) := by
  induction rest generalizing current with
  | nil => simp [tokenizeGo]
  | cons c r ih =>
    have hc : ¬c = q := h c (by simp)
    simp only [tokenizeGo, if_neg hc]
    rw [ih (current ++ [c]) (fun d hd => h d (by simp [hd]))]
    simp [List.append_assoc]

/-- `parseToken` on a token headed by a double quote: a phrase exactly when
the token also ends with a double quote (then both quotes are stripped),
otherwise a non-phrase term that keeps every character (shared helper). -/
theorem parseToken_dquote (tail : Str) :
    parseToken (Char.ofNat 34 :: tail) =
      (if (Char.ofNat 34 :: tail).getLast? = some (Char.ofNat 34)
       then SearchTerm.mk (jsToLower ((Char.ofNat 34 :: tail).dropLast.tail)) false true []
       else SearchTerm.mk (jsToLower (Char.ofNat 34 :: tail)) false false []) := by
  simp only [parseToken]
  by_cases hl : (Char.ofNat 34 :: tail).getLast? = some (Char.ofNat 34) <;>
    simp +decide [hl]

/-- `parseToken` on a token headed by an apostrophe: a phrase exactly when
the token also ends with an apostrophe, otherwise a non-phrase term that
keeps every character (shared helper). -/
theorem parseToken_squote (tail : Str) :
    parseToken (Char.ofNat 39 :: tail) =
      (if (Char.ofNat 39 :: tail).getLast? = some (Char.ofNat 39)
       then SearchTerm.mk (jsToLower ((Char.ofNat 39 :: tail).dropLast.tail)) false true []
       else SearchTerm.mk (jsToLower (Char.ofNat 39 :: tail)) false false []) := by
  simp only [parseToken]
  by_cases hl : (Char.ofNat 39 :: tail).getLast? = some (Char.ofNat 39) <;>
    simp +decide [hl]

/-- An unterminated double quote opening the final token: the token keeps the
quote, and the final term is the lone-quote empty phrase when only whitespace
follows, a quote-retaining non-phrase term otherwise (shared helper). -/
theorem c6_unterminated_dquote (rest : Str)
    (hrest : ∀ c ∈ rest, c ≠ Char.ofNat 34) :
    tokenizeQuery (Char.ofNat 34 :: rest) = [Char.ofNat 34 :: jsTrimRight rest] ∧
    parseSearchQuery (Char.ofNat 34 :: rest) =
      [if jsTrimRight rest = []
       then SearchTerm.mk [] false true []
       else SearchTerm.mk (jsToLower (Char.ofNat 34 :: jsTrimRight rest)) false false []] := by
  have htrim : jsTrim (Char.ofNat 34 :: rest) = Char.ofNat 34 :: jsTrimRight rest := by
    simp only [jsTrim, jsTrimLeft, List.dropWhile_cons]
    rw [if_neg (by decide)]
    exact jsTrimRight_cons _ _ (by decide)
  have htok : tokenizeQuery (Char.ofNat 34 :: rest) = [Char.ofNat 34 :: jsTrimRight rest] := by
    have h0 : tokenizeGo (Char.ofNat 34 :: rest) [] none [] =
        tokenizeGo rest [Char.ofNat 34] (some (Char.ofNat 34)) [] := rfl
    unfold tokenizeQuery
    rw [h0, tokenizeGo_inQuotes _ _ _ _ hrest]
    have : ((Char.ofNat 34 :: rest) : Str) = [Char.ofNat 34] ++ rest := rfl
    rw [← this, htrim]
    simp
  refine ⟨htok, ?_⟩
  unfold parseSearchQuery
  rw [htok]
  by_cases hrt : jsTrimRight rest = []
  · rw [hrt, if_pos rfl]
    rfl
  · obtain ⟨d, ds, hrv⟩ : ∃ d ds, rest.reverse.dropWhile isJsWhitespace = d :: ds := by
      cases hx : rest.reverse.dropWhile isJsWhitespace with
      | nil =>
        exfalso
        apply hrt
        unfold jsTrimRight
        rw [hx]
        rfl
      | cons d ds => exact ⟨d, ds, rfl⟩
    have hdmem : d ∈ rest := by
      have hsub := (List.dropWhile_sublist (l := rest.reverse) isJsWhitespace).subset
      have : d ∈ rest.reverse := hsub (by rw [hrv]; simp)
      exact List.mem_reverse.mp this
    have hd34 : d ≠ Char.ofNat 34 := hrest d hdmem
    have hlast : (jsTrimRight rest).getLast? = some d := by
      unfold jsTrimRight
      rw [List.getLast?_reverse, hrv]
      rfl
    obtain ⟨e, l', hel⟩ : ∃ e l', jsTrimRight rest = e :: l' := by
      cases hx : jsTrimRight rest with
      | nil => exact absurd hx hrt
      | cons e l' => exact ⟨e, l', rfl⟩
    have htoklast : (Char.ofNat 34 :: jsTrimRight rest).getLast? = some d := by
      rw [hel, List.getLast?_cons_cons, ← hel, hlast]
    have hor : ¬jsToLower (Char.ofNat 34 :: jsTrimRight rest) = ['o', 'r'] := by
      simp [jsToLower]
    simp only [parseTokensLoop, if_neg hor]
    rw [parseToken_dquote, if_neg (by rw [htoklast]; simp [hd34]), if_neg hrt]
    rfl

/-- An unterminated apostrophe quote opening the final token: same statement
as `c6_unterminated_dquote` for the other quote character (shared helper). -/
theorem c6_unterminated_squote (rest : Str)
    (hrest : ∀ c ∈ rest, c ≠ Char.ofNat 39) :
    tokenizeQuery (Char.ofNat 39 :: rest) = [Char.ofNat 39 :: jsTrimRight rest] ∧
    parseSearchQuery (Char.ofNat 39 :: rest) =
      [if jsTrimRight rest = []
       then SearchTerm.mk [] false true []
       else SearchTerm.mk (jsToLower (Char.ofNat 39 :: jsTrimRight rest)) false false []] := by
  have htrim : jsTrim (Char.ofNat 39 :: rest) = Char.ofNat 39 :: jsTrimRight rest := by
    simp only [jsTrim, jsTrimLeft, List.dropWhile_cons]
    rw [if_neg (by decide)]
    exact jsTrimRight_cons _ _ (by decide)
  have htok : tokenizeQuery (Char.ofNat 39 :: rest) = [Char.ofNat 39 :: jsTrimRight rest] := by
    have h0 : tokenizeGo (Char.ofNat 39 :: rest) [] none [] =
        tokenizeGo rest [Char.ofNat 39] (some (Char.ofNat 39)) [] := rfl
    unfold tokenizeQuery
    rw [h0, tokenizeGo_inQuotes _ _ _ _ hrest]
    have : ((Char.ofNat 39 :: rest) : Str) = [Char.ofNat 39] ++ rest := rfl
    rw [← this, htrim]
    simp
  refine ⟨htok, ?_⟩
  unfold parseSearchQuery
  rw [htok]
  by_cases hrt : jsTrimRight rest = []
  · rw [hrt, if_pos rfl]
    rfl
  · obtain ⟨d, ds, hrv⟩ : ∃ d ds, rest.reverse.dropWhile isJsWhitespace = d :: ds := by
      cases hx : rest.reverse.dropWhile isJsWhitespace with
      | nil =>
        exfalso
        apply hrt
        unfold jsTrimRight
        rw [hx]
        rfl
      | cons d ds => exact ⟨d, ds, rfl⟩
    have hdmem : d ∈ rest := by
      have hsub := (List.dropWhile_sublist (l := rest.reverse) isJsWhitespace).subset
      have : d ∈ rest.reverse := hsub (by rw [hrv]; simp)
      exact List.mem_reverse.mp this
    have hd39 : d ≠ Char.ofNat 39 := hrest d hdmem
    have hlast : (jsTrimRight rest).getLast? = some d := by
      unfold jsTrimRight
      rw [List.getLast?_reverse, hrv]
      rfl
    obtain ⟨e, l', hel⟩ : ∃ e l', jsTrimRight rest = e :: l' := by
      cases hx : jsTrimRight rest with
      | nil => exact absurd hx hrt
      | cons e l' => exact ⟨e, l', rfl⟩
    have htoklast : (Char.ofNat 39 :: jsTrimRight rest).getLast? = some d := by
      rw [hel, List.getLast?_cons_cons, ← hel, hlast]
    have hor : ¬jsToLower (Char.ofNat 39 :: jsTrimRight rest) = ['o', 'r'] := by
      simp [jsToLower]
    simp only [parseTokensLoop, if_neg hor]
    rw [parseToken_squote, if_neg (by rw [htoklast]; simp [hd39]), if_neg hrt]
    rfl

/-- C6 amended: for every query with an opening quote (either quote
character) that is never closed — its quote character does not occur again —
parsing never errors: whatever token text and emitted tokens preceded the
quote, the tokenizer accumulates every remaining character (spaces included)
into the current token and flushes it trimmed at end of string; the
tokenizer does not strip the quote, and `parseToken` treats a quote-headed
token as a phrase only when it also ends with that same quote character.
Hence when the opening quote starts the final token: if only whitespace (or
nothing) follows the quote, the token is the lone quote character and the
final term is a phrase term with EMPTY text; otherwise the final term is a
non-phrase term whose (lowercased) text retains the opening quote followed
by the right-trimmed remaining text — not a phrase term with the quotes
stripped. -/
theorem c6_amended_unterminated_quote (q : Char) (rest : Str)
    (hq : q = Char.ofNat 34 ∨ q = Char.ofNat 39)
    (hrest : ∀ c ∈ rest, c ≠ q) :
    (∀ (current : Str) (tokens : List Str),
      tokenizeGo rest current (some q) tokens =
        (if (jsTrim (current ++ rest)).isEmpty then tokens.reverse
         else (jsTrim (current ++ rest) :: tokens).reverse)) ∧
    (∀ tail : Str,
      parseToken (q :: tail) =
        (if (q :: tail).getLast? = some q
         then SearchTerm.mk (jsToLower ((q :: tail).dropLast.tail)) false true []
         else SearchTerm.mk (jsToLower (q :: tail)) false false [])) ∧
    tokenizeQuery (q :: rest) = [q :: jsTrimRight rest] ∧
    parseSearchQuery (q :: rest) =
      [if jsTrimRight rest = []
       then SearchTerm.mk [] false true []
       else SearchTerm.mk (jsToLower (q :: jsTrimRight rest)) false false []] := by
  refine ⟨fun current tokens => tokenizeGo_inQuotes _ _ _ _ hrest, ?_, ?_, ?_⟩
  · rcases hq with rfl | rfl
    · exact parseToken_dquote
    · exact parseToken_squote
  · rcases hq with rfl | rfl
    · exact (c6_unterminated_dquote rest hrest).1
    · exact (c6_unterminated_squote rest hrest).1
  · rcases hq with rfl | rfl
    · exact (c6_unterminated_dquote rest hrest).2
    · exact (c6_unterminated_squote rest hrest).2

/-- C6 amended witness: the concrete query `"xy` (unterminated double quote
with non-whitespace after it) parses to the single non-phrase term `"xy`,
quote included. -/
theorem c6_amended_unterminated_quote_witness :
    parseSearchQuery (Char.ofNat 34 :: "xy".toList) =
      [SearchTerm.mk (Char.ofNat 34 :: "xy".toList) false false []] := by
  have h := (c6_amended_unterminated_quote (Char.ofNat 34) ("xy".toList)
    (Or.inl rfl) (by decide)).2.2.2
  rw [h]
  rfl
